import Mathlib

/-!
# ttlcache: a map of items that expire once stale

A shallow embedding of `cache.go` (package `ttlcache`).

* The clock is an explicit argument `now` of every operation that reads
  `time.Now()`; instants and durations are integers (nanoseconds).
* `map[string]*Item` is an association list with pairwise distinct keys.
  An item is reachable only through its map slot, so the in-place update
  done through the pointer by `item.touch` is an in-place update of the slot.
* The mutex is not modelled: every operation holds it from start to end, so
  the operations are atomic state transformers.
-/

namespace TTLCache

/-- An instant of the clock (`time.Time`), in nanoseconds. -/
abbrev Time := Int

/-- A signed span of time (`time.Duration`), in nanoseconds. -/
abbrev Duration := Int

/-- Values of Go's `interface{}` as far as `cache.go` tells them apart: the nil
interface, a string, or any other dynamic value. -/
inductive Data (α : Type) where
  | nil : Data α
  | str (s : String) : Data α
  | other (a : α) : Data α
  deriving DecidableEq, Repr

/-- Modelled from the spec: the type `Item` (spec: Entry) is declared outside
`cache.go`. It carries the stored `value` and the instant `expiresAt`. -/
structure Item (α : Type) where
  data : Data α
  expiresAt : Time
  deriving DecidableEq, Repr

/-- Modelled from the spec: the method `Item.touch` is declared outside
`cache.go`. Touch resets the expiration deadline to now + TTL. -/
def Item.touch {α : Type} (item : Item α) (now : Time) (ttl : Duration) : Item α :=
  { item with expiresAt := now + ttl }

/-- Modelled from the spec: the method `Item.expired` is declared outside
`cache.go`. An entry is expired when `now >= expiresAt`. -/
def Item.expired {α : Type} (item : Item α) (now : Time) : Bool :=
  decide (now ≥ item.expiresAt)

/-! ## The map primitives of Go used by `cache.go` -/

/-- The map read `item, exists := m[key]`; `none` stands for `exists = false`. -/
def mapLookup {α : Type} (key : String) : List (String × Item α) → Option (Item α)
  | [] => none
  | (k, item) :: rest => if k = key then some item else mapLookup key rest

/-- The map write `m[key] = item`: overwrite the slot of `key`, or add one. -/
def mapStore {α : Type} (key : String) (item : Item α) :
    List (String × Item α) → List (String × Item α)
  | [] => [(key, item)]
  | (k, old) :: rest =>
    if k = key then (key, item) :: rest else (k, old) :: mapStore key item rest

/-- The builtin `delete(m, key)`: drop the slot of `key`, if there is one. -/
def mapDelete {α : Type} (key : String) (m : List (String × Item α)) :
    List (String × Item α) :=
  m.filter (fun e => decide (e.1 ≠ key))

/-- The keys of a map. -/
def mapKeys {α : Type} (m : List (String × Item α)) : List String :=
  m.map Prod.fst

/-- The loop of `cleanup`: `for key, item := range m` visiting the slots
`visit`, deleting the slot of each key whose item is expired. -/
def sweep {α : Type} (now : Time) (visit : List (String × Item α))
    (m : List (String × Item α)) : List (String × Item α) :=
  visit.foldl (fun acc e => if e.2.expired now then mapDelete e.1 acc else acc) m

/-! ## Lemmas on the map primitives -/

theorem mapLookup_store_eq {α : Type} (key : String) (item : Item α)
    (m : List (String × Item α)) : mapLookup key (mapStore key item m) = some item := by
  induction m with
  | nil => simp [mapStore, mapLookup]
  | cons e rest ih =>
    obtain ⟨k, old⟩ := e
    by_cases h : k = key
    · simp [mapStore, mapLookup, h]
    · simp [mapStore, mapLookup, h, ih]

theorem mapLookup_store_ne {α : Type} {key key' : String} (item : Item α)
    (m : List (String × Item α)) (hne : key' ≠ key) :
    mapLookup key' (mapStore key item m) = mapLookup key' m := by
  induction m with
  | nil => simp [mapStore, mapLookup, hne.symm]
  | cons e rest ih =>
    obtain ⟨k, old⟩ := e
    by_cases h : k = key
    · have h' : ¬ k = key' := fun hk => hne (hk.symm.trans h)
      have h'' : ¬ key = key' := fun hk => hne hk.symm
      simp [mapStore, mapLookup, h, h', h'']
    · by_cases hk : k = key'
      · subst hk
        simp [mapStore, mapLookup, h]
      · simp [mapStore, mapLookup, h, hk, ih]

theorem mapKeys_store_of_mem {α : Type} (key : String) (item : Item α)
    (m : List (String × Item α)) (hmem : key ∈ mapKeys m) :
    mapKeys (mapStore key item m) = mapKeys m := by
  induction m with
  | nil => simp [mapKeys] at hmem
  | cons e rest ih =>
    obtain ⟨k, old⟩ := e
    by_cases h : k = key
    · simp [mapStore, mapKeys, h]
    · have hrest : key ∈ mapKeys rest := by
        simp only [mapKeys, List.map_cons, List.mem_cons] at hmem
        rcases hmem with hm | hm
        · exact absurd hm.symm h
        · exact hm
      have := ih hrest
      simp only [mapKeys] at this
      simp [mapStore, mapKeys, h, this]

theorem mapKeys_store_of_not_mem {α : Type} (key : String) (item : Item α)
    (m : List (String × Item α)) (hmem : key ∉ mapKeys m) :
    mapKeys (mapStore key item m) = mapKeys m ++ [key] := by
  induction m with
  | nil => simp [mapStore, mapKeys]
  | cons e rest ih =>
    obtain ⟨k, old⟩ := e
    simp only [mapKeys, List.map_cons, List.mem_cons, not_or] at hmem
    have h : ¬ k = key := fun hk => hmem.1 hk.symm
    have := ih hmem.2
    simp only [mapKeys] at this
    simp [mapStore, mapKeys, h, this]

theorem mapKeys_store_nodup {α : Type} (key : String) (item : Item α)
    (m : List (String × Item α)) (hnd : (mapKeys m).Nodup) :
    (mapKeys (mapStore key item m)).Nodup := by
  by_cases hmem : key ∈ mapKeys m
  · rw [mapKeys_store_of_mem key item m hmem]
    exact hnd
  · rw [mapKeys_store_of_not_mem key item m hmem]
    exact List.Nodup.append hnd (List.nodup_singleton key)
      (by
        intro a ha hb
        rw [List.mem_singleton] at hb
        exact hmem (hb ▸ ha))

theorem mapKeys_delete_nodup {α : Type} (key : String)
    (m : List (String × Item α)) (hnd : (mapKeys m).Nodup) :
    (mapKeys (mapDelete key m)).Nodup := by
  unfold mapKeys mapDelete
  exact (List.Nodup.sublist (List.Sublist.map _ (List.filter_sublist _)) hnd)

theorem sweep_keys_nodup {α : Type} (now : Time) (visit : List (String × Item α)) :
    ∀ m : List (String × Item α), (mapKeys m).Nodup → (mapKeys (sweep now visit m)).Nodup := by
  induction visit with
  | nil => intro m hnd; simpa [sweep] using hnd
  | cons e rest ih =>
    intro m hnd
    have hstep : sweep now (e :: rest) m
        = sweep now rest (if e.2.expired now then mapDelete e.1 m else m) := by
      simp [sweep]
    rw [hstep]
    apply ih
    split
    · exact mapKeys_delete_nodup _ _ hnd
    · exact hnd

/-! ## The cache -/

/-- The struct `Cache`: the default TTL and the items, whose keys are pairwise
distinct as the keys of a Go map are. -/
structure Cache (α : Type) where
  ttl : Duration
  items : List (String × Item α)
  nodup : (mapKeys items).Nodup

/-- The method `Cache.SetWithTTL`: a fresh item holding `data`, touched with
`ttl`, is written to the slot of `key`. -/
def Cache.SetWithTTL {α : Type} (cache : Cache α) (now : Time) (key : String)
    (data : Data α) (ttl : Duration) : Cache α :=
  let item : Item α := Item.touch { data := data, expiresAt := 0 } now ttl
  { cache with
    items := mapStore key item cache.items
    nodup := mapKeys_store_nodup key item cache.items cache.nodup }

/-- The method `Cache.Set`: `SetWithTTL` with the cache's default TTL. -/
def Cache.Set {α : Type} (cache : Cache α) (now : Time) (key : String)
    (data : Data α) : Cache α :=
  cache.SetWithTTL now key data cache.ttl

/-- The method `Cache.Delete`. -/
def Cache.Delete {α : Type} (cache : Cache α) (key : String) : Cache α :=
  { cache with
    items := mapDelete key cache.items
    nodup := mapKeys_delete_nodup key cache.items cache.nodup }

/-- The method `Cache.Get`, returning `((data, found), cache afterwards)`. The
named results start at their zero values, the nil interface and `false`, and
are returned as they are when neither branch assigns them. -/
def Cache.Get {α : Type} (cache : Cache α) (now : Time) (key : String)
    (shouldTouch : Bool) : (Data α × Bool) × Cache α :=
  match mapLookup key cache.items with
  | none => ((Data.str "", false), cache)
  | some item =>
    if item.expired now then ((Data.str "", false), cache)
    else if shouldTouch then
      let item' := item.touch now cache.ttl
      ((item'.data, true),
        { cache with
          items := mapStore key item' cache.items
          nodup := mapKeys_store_nodup key item' cache.items cache.nodup })
    else ((Data.nil, false), cache)

/-- The method `Cache.Read`: `Get` with `shouldTouch = true`. -/
def Cache.Read {α : Type} (cache : Cache α) (now : Time) (key : String) :
    (Data α × Bool) × Cache α :=
  cache.Get now key true

/-- The method `Cache.Count`: `len(cache.items)`. -/
def Cache.Count {α : Type} (cache : Cache α) : Nat :=
  cache.items.length

/-- The method `Cache.cleanup`: the range loop over the items, deleting every
expired one. -/
def Cache.cleanup {α : Type} (cache : Cache α) (now : Time) : Cache α :=
  { cache with
    items := sweep now cache.items cache.items
    nodup := sweep_keys_nodup now cache.items cache.items cache.nodup }

/-- The constant `time.Second`, in nanoseconds. -/
def Second : Duration := 1000000000

/-- The method `Cache.startCleanupTimer`, as far as the period it passes to
`time.Tick`; the goroutine that calls `cleanup` on every tick is not modelled. -/
def Cache.startCleanupTimer {α : Type} (cache : Cache α) : Duration :=
  if cache.ttl < Second then Second else cache.ttl

/-- The constructor `NewCache`, without the timer it starts. -/
def NewCache {α : Type} (duration : Duration) : Cache α :=
  { ttl := duration, items := [], nodup := List.nodup_nil }

/-! ## Traces of operations -/

/-- One call of an exported method of the cache, or one tick of the cleanup
timer. -/
inductive Op (α : Type) where
  | set (key : String) (data : Data α) : Op α
  | setWithTTL (key : String) (data : Data α) (ttl : Duration) : Op α
  | delete (key : String) : Op α
  | get (key : String) (shouldTouch : Bool) : Op α
  | cleanup : Op α

/-- The key an operation is called with; the cleanup has none. -/
def Op.key? {α : Type} : Op α → Option String
  | Op.set key _ => some key
  | Op.setWithTTL key _ _ => some key
  | Op.delete key => some key
  | Op.get key _ => some key
  | Op.cleanup => none

/-- Whether the operation is a lookup (`Get`, hence also `Read`). -/
def Op.isGet {α : Type} : Op α → Bool
  | Op.get _ _ => true
  | _ => false

/-- The cache after one operation run at the instant `now`. -/
def Cache.step {α : Type} (cache : Cache α) (now : Time) : Op α → Cache α
  | Op.set key data => cache.Set now key data
  | Op.setWithTTL key data ttl => cache.SetWithTTL now key data ttl
  | Op.delete key => cache.Delete key
  | Op.get key shouldTouch => (cache.Get now key shouldTouch).2
  | Op.cleanup => cache.cleanup now

/-- The cache after a sequence of operations, each with the instant it runs at. -/
def Cache.run {α : Type} (cache : Cache α) : List (Time × Op α) → Cache α
  | [] => cache
  | (now, op) :: rest => (cache.step now op).run rest

/-- The results of successive calls `Read(key)` at the given instants. -/
def Cache.readSeq {α : Type} (cache : Cache α) (key : String) :
    List Time → List (Data α × Bool)
  | [] => []
  | now :: rest => (cache.Read now key).1 :: (cache.Read now key).2.readSeq key rest

/-- The number of entries of the map that are not expired at `now`. -/
def Cache.liveCount {α : Type} (cache : Cache α) (now : Time) : Nat :=
  (cache.items.filter (fun e => !e.2.expired now)).length

/-! ## More lemmas on the map primitives -/

theorem Cache.ext_items {α : Type} {c c' : Cache α} (httl : c.ttl = c'.ttl)
    (hitems : c.items = c'.items) : c = c' := by
  cases c
  cases c'
  simp only at httl hitems
  subst httl
  subst hitems
  rfl

theorem mapDelete_cons {α : Type} (key k : String) (old : Item α)
    (rest : List (String × Item α)) :
    mapDelete key ((k, old) :: rest)
      = if k = key then mapDelete key rest else (k, old) :: mapDelete key rest := by
  by_cases h : k = key
  · simp [mapDelete, List.filter_cons, h]
  · simp [mapDelete, List.filter_cons, h]

theorem mapLookup_delete_eq {α : Type} (key : String) (m : List (String × Item α)) :
    mapLookup key (mapDelete key m) = none := by
  induction m with
  | nil => rfl
  | cons e rest ih =>
    obtain ⟨k, old⟩ := e
    rw [mapDelete_cons]
    by_cases h : k = key
    · simp [h, ih]
    · simp [h, ih, mapLookup]

theorem mapLookup_delete_ne {α : Type} {key key' : String} (m : List (String × Item α))
    (hne : key' ≠ key) : mapLookup key' (mapDelete key m) = mapLookup key' m := by
  induction m with
  | nil => rfl
  | cons e rest ih =>
    obtain ⟨k, old⟩ := e
    rw [mapDelete_cons]
    by_cases h : k = key
    · have h' : ¬ k = key' := fun hk => hne (hk.symm.trans h)
      rw [if_pos h, ih]
      simp [mapLookup, h']
    · rw [if_neg h]
      by_cases hk : k = key'
      · simp [mapLookup, hk]
      · simp [ih, mapLookup, hk]

theorem mapLookup_eq_none_iff {α : Type} (key : String) (m : List (String × Item α)) :
    mapLookup key m = none ↔ key ∉ mapKeys m := by
  induction m with
  | nil => simp [mapLookup, mapKeys]
  | cons e rest ih =>
    obtain ⟨k, old⟩ := e
    by_cases h : k = key
    · simp [mapLookup, mapKeys, h]
    · have h' : ¬ key = k := fun hk => h hk.symm
      simp only [mapKeys] at ih
      simp [mapLookup, mapKeys, h, h', ih]

theorem mapDelete_of_lookup_none {α : Type} (key : String) (m : List (String × Item α))
    (h : mapLookup key m = none) : mapDelete key m = m := by
  rw [mapLookup_eq_none_iff] at h
  unfold mapDelete
  rw [List.filter_eq_self]
  intro e he
  have : e.1 ≠ key := fun hk => h (by
    rw [← hk]
    exact List.mem_map_of_mem Prod.fst he)
  simpa using this

theorem mapLookup_sweep {α : Type} (now : Time) (key : String)
    (visit : List (String × Item α)) :
    ∀ m : List (String × Item α),
      mapLookup key (sweep now visit m) = none
        ∨ mapLookup key (sweep now visit m) = mapLookup key m := by
  induction visit with
  | nil => intro m; right; rfl
  | cons e rest ih =>
    intro m
    have hstep : sweep now (e :: rest) m
        = sweep now rest (if e.2.expired now then mapDelete e.1 m else m) := by
      simp [sweep]
    rw [hstep]
    rcases ih (if e.2.expired now then mapDelete e.1 m else m) with h | h
    · left; exact h
    · rw [h]
      by_cases hexp : e.2.expired now = true
      · simp only [hexp, if_true]
        by_cases hk : key = e.1
        · left; rw [hk]; exact mapLookup_delete_eq _ _
        · right; exact mapLookup_delete_ne _ hk
      · right; simp [hexp]

/-! ## C1 to C3: Set, Read and Get -/

theorem get_of_lookup_none {α : Type} (c : Cache α) (now : Time) (key : String) (b : Bool)
    (h : mapLookup key c.items = none) : c.Get now key b = ((Data.str "", false), c) := by
  simp [Cache.Get, h]

theorem get_of_expired {α : Type} (c : Cache α) (now : Time) (key : String) (b : Bool)
    (item : Item α) (h : mapLookup key c.items = some item) (hexp : item.expired now = true) :
    c.Get now key b = ((Data.str "", false), c) := by
  simp [Cache.Get, h, hexp]

theorem get_touch_of_live {α : Type} (c : Cache α) (now : Time) (key : String)
    (item : Item α) (h : mapLookup key c.items = some item) (hexp : item.expired now = false) :
    (c.Get now key true).1 = (item.data, true)
      ∧ (c.Get now key true).2.ttl = c.ttl
      ∧ (c.Get now key true).2.items = mapStore key (item.touch now c.ttl) c.items := by
  simp [Cache.Get, h, hexp, Item.touch]

theorem lookup_setWithTTL {α : Type} (c : Cache α) (now : Time) (key : String)
    (data : Data α) (ttl : Duration) :
    mapLookup key (c.SetWithTTL now key data ttl).items
      = some { data := data, expiresAt := now + ttl } := by
  simp [Cache.SetWithTTL, Item.touch, mapLookup_store_eq]

/-- C1 (Set-then-Read): `Set(k, v)` at time `t` followed by `Read(k)` at a time
`t'` with `t <= t' < t + c.ttl` returns `(v, true)`. -/
theorem C1_set_then_read {α : Type} (c : Cache α) (k : String) (v : Data α) (t t' : Time)
    (_hle : t ≤ t') (hlt : t' < t + c.ttl) :
    ((c.Set t k v).Read t' k).1 = (v, true) := by
  have hl := lookup_setWithTTL c t k v c.ttl
  have hexp : Item.expired ({ data := v, expiresAt := t + c.ttl } : Item α) t' = false := by
    simp only [Item.expired, decide_eq_false_iff_not, ge_iff_le, not_le]
    exact hlt
  exact (get_touch_of_live (c.Set t k v) t' k _ hl hexp).1

/-- Witness of C1: default TTL 10, `Set` at 0 and `Read` at 3. -/
theorem C1_set_then_read_witness :
    (((NewCache 10 : Cache Nat).Set 0 "k" (Data.other 7)).Read 3 "k").1
      = (Data.other 7, true) :=
  C1_set_then_read (NewCache 10) "k" (Data.other 7) 0 3 (by decide) (by decide)

theorem lookup_get_ne {α : Type} (c : Cache α) (now : Time) {key key' : String} (b : Bool)
    (hne : key' ≠ key) :
    mapLookup key' (c.Get now key b).2.items = mapLookup key' c.items := by
  unfold Cache.Get
  cases hl : mapLookup key c.items with
  | none => rfl
  | some item =>
    by_cases hexp : item.expired now = true
    · simp [hexp]
    · cases b with
      | false => simp [hexp]
      | true => simp [hexp, mapLookup_store_ne _ _ hne]

theorem lookup_step_other {α : Type} (c : Cache α) (now : Time) (key : String) (op : Op α)
    (hop : op.key? ≠ some key) :
    mapLookup key (c.step now op).items = none
      ∨ mapLookup key (c.step now op).items = mapLookup key c.items := by
  cases op with
  | set k data =>
    have hne : key ≠ k := fun h => hop (by simp [Op.key?, h])
    right
    exact mapLookup_store_ne _ _ hne
  | setWithTTL k data ttl =>
    have hne : key ≠ k := fun h => hop (by simp [Op.key?, h])
    right
    exact mapLookup_store_ne _ _ hne
  | delete k =>
    have hne : key ≠ k := fun h => hop (by simp [Op.key?, h])
    right
    exact mapLookup_delete_ne _ hne
  | get k b =>
    have hne : key ≠ k := fun h => hop (by simp [Op.key?, h])
    right
    exact lookup_get_ne c now b hne
  | cleanup => exact mapLookup_sweep now key c.items c.items

theorem lookup_run_other {α : Type} (key : String) (ops : List (Time × Op α)) :
    ∀ c : Cache α, (∀ o ∈ ops, o.2.key? ≠ some key) →
      mapLookup key (c.run ops).items = none
        ∨ mapLookup key (c.run ops).items = mapLookup key c.items := by
  induction ops with
  | nil => intro c _; right; rfl
  | cons o rest ih =>
    intro c hops
    obtain ⟨now, op⟩ := o
    have hhead : op.key? ≠ some key := hops (now, op) (List.mem_cons_self _ _)
    have htail : ∀ o ∈ rest, o.2.key? ≠ some key :=
      fun o ho => hops o (List.mem_cons_of_mem _ ho)
    show mapLookup key ((c.step now op).run rest).items = none
        ∨ mapLookup key ((c.step now op).run rest).items = mapLookup key c.items
    rcases ih (c.step now op) htail with h | h
    · left; exact h
    · rw [h]
      exact lookup_step_other c now key op hhead

/-- C2 (TTL expiry): `SetWithTTL(k, v, d)` at time `t`, then any operations that
are not called with `k` (cleanups included), then `Read(k)` at a time
`t' > t + d` returns found = false. -/
theorem C2_ttl_expiry {α : Type} (c : Cache α) (k : String) (v : Data α) (d : Duration)
    (t t' : Time) (ops : List (Time × Op α))
    (hops : ∀ o ∈ ops, o.2.key? ≠ some k) (hlate : t' > t + d) :
    (((c.SetWithTTL t k v d).run ops).Read t' k).1.2 = false := by
  rcases lookup_run_other k ops (c.SetWithTTL t k v d) hops with h | h
  · rw [Cache.Read, get_of_lookup_none _ _ _ _ h]
  · rw [lookup_setWithTTL] at h
    have hexp : Item.expired ({ data := v, expiresAt := t + d } : Item α) t' = true := by
      simp only [Item.expired, decide_eq_true_eq, ge_iff_le]
      exact le_of_lt hlate
    rw [Cache.Read, get_of_expired _ _ _ _ _ h hexp]

/-- Witness of C2: an entry stored at 0 for 5, another key set at 2, read at 6. -/
theorem C2_ttl_expiry_witness :
    ((((NewCache 10 : Cache Nat).SetWithTTL 0 "k" (Data.other 7) 5).run
        [(2, Op.set "j" Data.nil)]).Read 6 "k").1.2 = false :=
  C2_ttl_expiry (NewCache 10) "k" (Data.other 7) 5 0 6 [(2, Op.set "j" Data.nil)]
    (by decide) (by decide)

/-- C3 (shouldTouch=false): `Get(k, false)` returns found = false at every time
and for every cache, also right after `Set(k, v)` while the entry is live, and
leaves the cache as it was. -/
theorem C3_get_without_touch {α : Type} (c : Cache α) (k : String) (t : Time) :
    (c.Get t k false).1.2 = false
      ∧ (c.Get t k false).2 = c
      ∧ ∀ (v : Data α) (t0 : Time), ((c.Set t0 k v).Get t k false).1.2 = false := by
  have key : ∀ c' : Cache α, (c'.Get t k false).1.2 = false ∧ (c'.Get t k false).2 = c' := by
    intro c'
    unfold Cache.Get
    cases hl : mapLookup k c'.items with
    | none => exact ⟨rfl, rfl⟩
    | some item =>
      by_cases hexp : item.expired t = true
      · simp [hexp]
      · simp [hexp]
  exact ⟨(key c).1, (key c).2, fun v t0 => (key (c.Set t0 k v)).1⟩

/-! ## C4 to C6: touching -/

theorem readSeq_of_live {α : Type} (key : String) (T : Duration) (ts : List Time) :
    ∀ (t : Time) (c : Cache α) (item : Item α), c.ttl = T →
      mapLookup key c.items = some item → t < item.expiresAt →
      List.Chain (fun a b : Time => a < b ∧ b - a < T) t ts →
      ∀ r ∈ c.readSeq key (t :: ts), r = (item.data, true) := by
  induction ts with
  | nil =>
    intro t c item _ hl hlt _ r hr
    have hexp : item.expired t = false := by
      simp only [Item.expired, decide_eq_false_iff_not, ge_iff_le, not_le]
      exact hlt
    have hget := get_touch_of_live c t key item hl hexp
    simp only [Cache.readSeq, Cache.Read, List.mem_singleton] at hr
    rw [hr]
    exact hget.1
  | cons t' rest ih =>
    intro t c item httl hl hlt hchain r hr
    have hexp : item.expired t = false := by
      simp only [Item.expired, decide_eq_false_iff_not, ge_iff_le, not_le]
      exact hlt
    have hget := get_touch_of_live c t key item hl hexp
    rw [List.chain_cons] at hchain
    have hr' : r = (c.Read t key).1 ∨ r ∈ (c.Read t key).2.readSeq key (t' :: rest) := by
      simpa [Cache.readSeq] using hr
    rcases hr' with h | h
    · rw [h]
      exact hget.1
    · have hl' : mapLookup key (c.Read t key).2.items = some (item.touch t c.ttl) := by
        show mapLookup key (c.Get t key true).2.items = some (item.touch t c.ttl)
        rw [hget.2.2]
        exact mapLookup_store_eq _ _ _
      have hlt' : t' < (item.touch t c.ttl).expiresAt := by
        show t' < t + c.ttl
        rw [httl]
        linarith [hchain.1.2]
      have httl' : (c.Read t key).2.ttl = T := by
        show (c.Get t key true).2.ttl = T
        rw [hget.2.1]
        exact httl
      exact ih t' (c.Read t key).2 (item.touch t c.ttl) httl' hl' hlt' hchain.2 r h

/-- C4 as stated fails: with default TTL 2, an entry stored at 0 for 10 and read
at 9 and at 15 (gaps of 9 and 6, both shorter than 10) is found at 9 and not at
15: the read at 9 set the deadline to 9 + 2 = 11. -/
theorem C4_counterexample :
    (0 : Duration) < 10
      ∧ List.Chain (fun a b : Time => a < b ∧ b - a < 10) 0 [9, 15]
      ∧ ((NewCache 2 : Cache Nat).SetWithTTL 0 "k" (Data.other 7) 10).readSeq "k" [9, 15]
          = [(Data.other 7, true), (Data.str "", false)] := by
  refine ⟨by decide, ?_, by decide⟩
  exact List.Chain.cons (by decide) (List.Chain.cons (by decide) List.Chain.nil)

/-- C4, amended (touch extends life by the default TTL): after
`SetWithTTL(k, v, d)` at `t0`, reads of `k` at increasing times `t1 < t2 < ...`
all return `(v, true)` when the first gap `t1 - t0` is shorter than `d` and
every later gap is shorter than the cache's default TTL. -/
theorem C4_touch_extends_life {α : Type} (c : Cache α) (k : String) (v : Data α)
    (d : Duration) (t0 t1 : Time) (rest : List Time)
    (hfirst : t0 < t1 ∧ t1 - t0 < d)
    (hrest : List.Chain (fun a b : Time => a < b ∧ b - a < c.ttl) t1 rest) :
    ∀ r ∈ (c.SetWithTTL t0 k v d).readSeq k (t1 :: rest), r = (v, true) := by
  have hl := lookup_setWithTTL c t0 k v d
  have hlt : t1 < ({ data := v, expiresAt := t0 + d } : Item α).expiresAt := by
    show t1 < t0 + d
    linarith [hfirst.2]
  exact readSeq_of_live k c.ttl rest t1 (c.SetWithTTL t0 k v d) _ rfl hl hlt hrest

/-- Witness of C4: default TTL 4, stored at 0 for 10, read at 5, 8 and 11; the
third read still finds the value. -/
theorem C4_touch_extends_life_witness :
    (((((NewCache 4 : Cache Nat).SetWithTTL 0 "k" (Data.other 7) 10).Read 5 "k").2.Read
        8 "k").2.Read 11 "k").1 = (Data.other 7, true) :=
  C4_touch_extends_life (NewCache 4) "k" (Data.other 7) 10 0 5 [8, 11]
    (by decide)
    (List.Chain.cons (by decide) (List.Chain.cons (by decide) List.Chain.nil))
    _ (by simp [Cache.readSeq])

/-- C5 (touch uses the default TTL): when `k` is present and not expired at `t`,
`Get(k, true)` at `t` returns the stored value with found = true and leaves the
entry of `k` with the same value and `expiresAt = t + c.ttl`. -/
theorem C5_touch_uses_default_ttl {α : Type} (c : Cache α) (k : String) (t : Time)
    (item : Item α) (hpresent : mapLookup k c.items = some item)
    (hlive : item.expired t = false) :
    (c.Get t k true).1 = (item.data, true)
      ∧ mapLookup k (c.Get t k true).2.items
          = some { data := item.data, expiresAt := t + c.ttl } := by
  have hget := get_touch_of_live c t k item hpresent hlive
  refine ⟨hget.1, ?_⟩
  rw [hget.2.2, mapLookup_store_eq]
  rfl

/-- Witness of C5: default TTL 10, an entry stored at 0 for 100, touched at 3. -/
theorem C5_touch_uses_default_ttl_witness :
    (((NewCache 10 : Cache Nat).SetWithTTL 0 "k" (Data.other 7) 100).Get 3 "k" true).1
        = (Data.other 7, true)
      ∧ mapLookup "k"
          (((NewCache 10 : Cache Nat).SetWithTTL 0 "k" (Data.other 7) 100).Get 3 "k" true).2.items
          = some { data := Data.other 7, expiresAt := 3 + 10 } :=
  C5_touch_uses_default_ttl ((NewCache 10 : Cache Nat).SetWithTTL 0 "k" (Data.other 7) 100)
    "k" 3 { data := Data.other 7, expiresAt := 100 } (by decide) (by decide)

/-- C6 fails on the code: with default TTL 1, an entry stored at 0 for 100
expires at 100; a successful `Read` at 1 leaves it expiring at 2, earlier than
before the call. -/
theorem C6_read_shortens_life :
    mapLookup "k" ((NewCache 1 : Cache Nat).SetWithTTL 0 "k" (Data.other 7) 100).items
        = some { data := Data.other 7, expiresAt := 100 }
      ∧ (((NewCache 1 : Cache Nat).SetWithTTL 0 "k" (Data.other 7) 100).Read 1 "k").1
        = (Data.other 7, true)
      ∧ mapLookup "k"
          (((NewCache 1 : Cache Nat).SetWithTTL 0 "k" (Data.other 7) 100).Read 1 "k").2.items
        = some { data := Data.other 7, expiresAt := 2 } := by
  decide

/-! ## C7 and C8: Delete and overwrite -/

/-- C7 (Delete removes immediately): after `Delete(k)` every `Get(k, b)`, hence
every `Read(k)`, at any time returns found = false, whatever deadline the entry
had; and when `k` is absent `Delete(k)` leaves the cache as it was. -/
theorem C7_delete_removes {α : Type} (c : Cache α) (k : String) (t : Time) (b : Bool) :
    ((c.Delete k).Get t k b).1.2 = false
      ∧ (mapLookup k c.items = none → c.Delete k = c) := by
  constructor
  · have h : mapLookup k (c.Delete k).items = none := mapLookup_delete_eq k c.items
    rw [get_of_lookup_none _ _ _ _ h]
  · intro h
    exact Cache.ext_items rfl (mapDelete_of_lookup_none k c.items h)

/-- Witness of C7: deleting a key of the empty cache changes nothing. -/
theorem C7_delete_removes_witness :
    ((NewCache 10 : Cache Nat).Delete "k") = NewCache 10 :=
  (C7_delete_removes (NewCache 10 : Cache Nat) "k" 0 true).2 (by decide)

/-- C8 (overwrite is last-write-wins): with a positive default TTL, `Set(k, v1)`
then `Set(k, v2)` at `t2` then `Read(k)` before `t2 + c.ttl` returns `(v2, true)`,
and after the second `Set` the entry holds `v2` and expires at `t2 + c.ttl`. -/
theorem C8_overwrite {α : Type} (c : Cache α) (k : String) (v1 v2 : Data α)
    (t1 t2 t3 : Time) (_hpos : c.ttl > 0) (hlt : t3 < t2 + c.ttl) :
    (((c.Set t1 k v1).Set t2 k v2).Read t3 k).1 = (v2, true)
      ∧ mapLookup k ((c.Set t1 k v1).Set t2 k v2).items
          = some { data := v2, expiresAt := t2 + c.ttl } := by
  have hl : mapLookup k ((c.Set t1 k v1).Set t2 k v2).items
      = some { data := v2, expiresAt := t2 + c.ttl } :=
    lookup_setWithTTL (c.Set t1 k v1) t2 k v2 c.ttl
  have hexp : Item.expired ({ data := v2, expiresAt := t2 + c.ttl } : Item α) t3 = false := by
    simp only [Item.expired, decide_eq_false_iff_not, ge_iff_le, not_le]
    exact hlt
  exact ⟨(get_touch_of_live _ t3 k _ hl hexp).1, hl⟩

/-- Witness of C8: default TTL 10, `Set` at 0 and at 4, `Read` at 12, after the
first deadline and before the second. -/
theorem C8_overwrite_witness :
    ((((NewCache 10 : Cache Nat).Set 0 "k" (Data.other 1)).Set 4 "k" (Data.other 2)).Read
        12 "k").1 = (Data.other 2, true)
      ∧ mapLookup "k"
          (((NewCache 10 : Cache Nat).Set 0 "k" (Data.other 1)).Set 4 "k" (Data.other 2)).items
          = some { data := Data.other 2, expiresAt := 4 + (NewCache 10 : Cache Nat).ttl } :=
  C8_overwrite (NewCache 10) "k" (Data.other 1) (Data.other 2) 0 4 12 (by decide) (by decide)

/-! ## C9: the sweep -/

theorem sweep_eq_filter {α : Type} (now : Time) (visit : List (String × Item α)) :
    ∀ m : List (String × Item α),
      sweep now visit m
        = m.filter (fun e => !(visit.any (fun x => decide (x.1 = e.1) && x.2.expired now))) := by
  induction visit with
  | nil => intro m; simp [sweep]
  | cons x rest ih =>
    intro m
    have hstep : sweep now (x :: rest) m
        = sweep now rest (if x.2.expired now then mapDelete x.1 m else m) := by
      simp [sweep]
    rw [hstep, ih]
    by_cases hexp : x.2.expired now = true
    · rw [if_pos hexp, mapDelete, List.filter_filter]
      apply List.filter_congr
      intro e _
      by_cases hk : x.1 = e.1
      · have hk' : e.1 = x.1 := hk.symm
        simp [hexp, hk']
      · have hk' : ¬ e.1 = x.1 := fun h => hk h.symm
        simp [hexp, hk, hk']
    · rw [if_neg hexp]
      apply List.filter_congr
      intro e _
      simp [hexp]

theorem any_expired_of_nodup {α : Type} (now : Time) (m visit : List (String × Item α))
    (hnd : (mapKeys m).Nodup) (hvisit : ∀ x, x ∈ visit ↔ x ∈ m)
    (e : String × Item α) (he : e ∈ m) :
    visit.any (fun x => decide (x.1 = e.1) && x.2.expired now) = e.2.expired now := by
  cases hexp : e.2.expired now with
  | true =>
    rw [List.any_eq_true]
    exact ⟨e, (hvisit e).2 he, by simp [hexp]⟩
  | false =>
    rw [List.any_eq_false]
    intro x hx hcontra
    simp only [Bool.and_eq_true, decide_eq_true_eq] at hcontra
    have hxe : x = e :=
      List.inj_on_of_nodup_map hnd ((hvisit x).1 hx) he hcontra.1
    rw [hxe, hexp] at hcontra
    exact Bool.false_ne_true hcontra.2

theorem sweep_of_nodup {α : Type} (now : Time) (m visit : List (String × Item α))
    (hnd : (mapKeys m).Nodup) (hvisit : ∀ x, x ∈ visit ↔ x ∈ m) :
    sweep now visit m = m.filter (fun e => !e.2.expired now) := by
  rw [sweep_eq_filter]
  apply List.filter_congr
  intro e he
  rw [any_expired_of_nodup now m visit hnd hvisit e he]

theorem mapLookup_filter {α : Type} (key : String) (p : Item α → Bool)
    (m : List (String × Item α)) (hnd : (mapKeys m).Nodup) :
    mapLookup key (m.filter (fun e => p e.2)) = (mapLookup key m).filter p := by
  induction m with
  | nil => rfl
  | cons e rest ih =>
    obtain ⟨k, item⟩ := e
    have hnd' : (mapKeys rest).Nodup := (List.nodup_cons.1 hnd).2
    have hk : k ∉ mapKeys rest := (List.nodup_cons.1 hnd).1
    by_cases h : k = key
    · subst h
      have hnone : mapLookup k rest = none := (mapLookup_eq_none_iff k rest).2 hk
      cases hp : p item with
      | true => simp [List.filter_cons, hp, mapLookup, Option.filter]
      | false => simp [List.filter_cons, hp, mapLookup, Option.filter, ih hnd', hnone]
    · cases hp : p item with
      | true => simp [List.filter_cons, hp, mapLookup, h, ih hnd']
      | false => simp [List.filter_cons, hp, mapLookup, h, ih hnd']

theorem cleanup_items {α : Type} (c : Cache α) (t : Time) :
    (c.cleanup t).items = c.items.filter (fun e => !e.2.expired t) :=
  sweep_of_nodup t c.items c.items c.nodup (fun _ => Iff.rfl)

/-- C9 (the sweep removes exactly the expired entries): after `cleanup` at `t`
the map holds the entries that were not expired at `t`, with value and
expiration unchanged, in whatever order the range loop visits the map; no
remaining entry is expired at `t`, and a second cleanup at `t` changes nothing. -/
theorem C9_cleanup_exact {α : Type} (c : Cache α) (t : Time) :
    (c.cleanup t).items = c.items.filter (fun e => !e.2.expired t)
      ∧ (∀ k : String, mapLookup k (c.cleanup t).items
            = (mapLookup k c.items).filter (fun item => !item.expired t))
      ∧ (∀ e ∈ (c.cleanup t).items, e.2.expired t = false)
      ∧ (c.cleanup t).cleanup t = c.cleanup t
      ∧ (c.cleanup t).ttl = c.ttl
      ∧ (∀ visit : List (String × Item α), visit.Perm c.items →
            sweep t visit c.items = (c.cleanup t).items) := by
  have hitems := cleanup_items c t
  refine ⟨hitems, ?_, ?_, ?_, rfl, ?_⟩
  · intro k
    rw [hitems]
    exact mapLookup_filter k (fun item => !item.expired t) c.items c.nodup
  · intro e he
    rw [hitems, List.mem_filter] at he
    simpa using he.2
  · apply Cache.ext_items
    · rfl
    · rw [cleanup_items (c.cleanup t) t, hitems, List.filter_filter]
      apply List.filter_congr
      intro e _
      simp
  · intro visit hperm
    rw [hitems]
    exact sweep_of_nodup t c.items visit c.nodup (fun x => hperm.mem_iff)

/-! ## C10: Count -/

theorem mapStore_length_of_mem {α : Type} (key : String) (item : Item α)
    (m : List (String × Item α)) (hmem : key ∈ mapKeys m) :
    (mapStore key item m).length = m.length := by
  have h := congrArg List.length (mapKeys_store_of_mem key item m hmem)
  simpa [mapKeys] using h

theorem count_get {α : Type} (c : Cache α) (now : Time) (key : String) (b : Bool) :
    (c.Get now key b).2.Count = c.Count := by
  unfold Cache.Get
  cases hl : mapLookup key c.items with
  | none => rfl
  | some item =>
    have hmem : key ∈ mapKeys c.items := by
      by_contra hcon
      rw [(mapLookup_eq_none_iff key c.items).2 hcon] at hl
      exact Option.noConfusion hl
    by_cases hexp : item.expired now = true
    · simp [hexp]
    · cases b with
      | false => simp [hexp]
      | true => simp [hexp, Cache.Count, mapStore_length_of_mem _ _ _ hmem]

theorem count_run_gets {α : Type} (ops : List (Time × Op α)) :
    ∀ c : Cache α, (∀ o ∈ ops, o.2.isGet = true) → (c.run ops).Count = c.Count := by
  induction ops with
  | nil => intro c _; rfl
  | cons o rest ih =>
    intro c hops
    obtain ⟨now, op⟩ := o
    have hhead : op.isGet = true := hops (now, op) (List.mem_cons_self _ _)
    have htail : ∀ o ∈ rest, o.2.isGet = true :=
      fun o ho => hops o (List.mem_cons_of_mem _ ho)
    show ((c.step now op).run rest).Count = c.Count
    rw [ih (c.step now op) htail]
    cases op with
    | get key b => exact count_get c now key b
    | set key data => simp [Op.isGet] at hhead
    | setWithTTL key data ttl => simp [Op.isGet] at hhead
    | delete key => simp [Op.isGet] at hhead
    | cleanup => simp [Op.isGet] at hhead

/-- C10 (Count counts un-swept expired entries): `Count()` is the number of keys
of the map, whatever their expirations; it is never smaller than the number of
entries not expired at a time `t`; and after `SetWithTTL(k, v, d)` on an empty
cache it is 1 and stays 1 through any lookups at any times, before and after
the entry's deadline. -/
theorem C10_count {α : Type} (c : Cache α) :
    c.Count = (mapKeys c.items).toFinset.card
      ∧ (∀ t : Time, c.liveCount t ≤ c.Count)
      ∧ (c.items = [] →
          ∀ (k : String) (v : Data α) (d : Duration) (t : Time) (ops : List (Time × Op α)),
            (∀ o ∈ ops, o.2.isGet = true) →
            ((c.SetWithTTL t k v d).run ops).Count = 1) := by
  refine ⟨?_, ?_, ?_⟩
  · rw [List.toFinset_card_of_nodup c.nodup]
    simp [Cache.Count, mapKeys]
  · intro t
    exact List.length_filter_le _ _
  · intro hempty k v d t ops hops
    rw [count_run_gets ops _ hops]
    simp [Cache.Count, Cache.SetWithTTL, hempty, mapStore]

/-- Witness of C10: an entry stored at 0 for 1 is still counted after lookups at
5 and 9, when it is expired. -/
theorem C10_count_witness :
    (((NewCache 10 : Cache Nat).SetWithTTL 0 "k" (Data.other 7) 1).run
        [(5, Op.get "k" true), (9, Op.get "j" false)]).Count = 1 :=
  (C10_count (NewCache 10 : Cache Nat)).2.2 rfl "k" (Data.other 7) 1 0
    [(5, Op.get "k" true), (9, Op.get "j" false)] (by decide)

/-! ## C11: lookups that miss -/

/-- C11 (reads never delete): when `k` is absent, or present and expired at `t`,
`Get(k, b)` at `t` returns found = false and leaves the cache as it was: the
lookup of every key, an expired entry of `k` included, and `Count()` are the
same before and after. -/
theorem C11_reads_never_delete {α : Type} (c : Cache α) (k : String) (b : Bool) (t : Time)
    (hmiss : mapLookup k c.items = none
      ∨ ∃ item, mapLookup k c.items = some item ∧ item.expired t = true) :
    (c.Get t k b).1.2 = false
      ∧ (c.Get t k b).2 = c
      ∧ (∀ k' : String, mapLookup k' (c.Get t k b).2.items = mapLookup k' c.items)
      ∧ (c.Get t k b).2.Count = c.Count := by
  have hget : c.Get t k b = ((Data.str "", false), c) := by
    rcases hmiss with h | ⟨item, h, hexp⟩
    · exact get_of_lookup_none c t k b h
    · exact get_of_expired c t k b item h hexp
  rw [hget]
  exact ⟨rfl, rfl, fun _ => rfl, rfl⟩

/-- Witness of C11: an entry stored at 0 for 1 and read at 5 stays in the map. -/
theorem C11_reads_never_delete_witness :
    (((NewCache 10 : Cache Nat).SetWithTTL 0 "k" (Data.other 7) 1).Get 5 "k" true).1.2 = false
      ∧ (((NewCache 10 : Cache Nat).SetWithTTL 0 "k" (Data.other 7) 1).Get 5 "k" true).2
          = (NewCache 10 : Cache Nat).SetWithTTL 0 "k" (Data.other 7) 1
      ∧ (∀ k' : String,
          mapLookup k'
              (((NewCache 10 : Cache Nat).SetWithTTL 0 "k" (Data.other 7) 1).Get 5 "k" true).2.items
            = mapLookup k' ((NewCache 10 : Cache Nat).SetWithTTL 0 "k" (Data.other 7) 1).items)
      ∧ (((NewCache 10 : Cache Nat).SetWithTTL 0 "k" (Data.other 7) 1).Get 5 "k" true).2.Count
          = ((NewCache 10 : Cache Nat).SetWithTTL 0 "k" (Data.other 7) 1).Count :=
  C11_reads_never_delete ((NewCache 10 : Cache Nat).SetWithTTL 0 "k" (Data.other 7) 1)
    "k" true 5 (Or.inr ⟨{ data := Data.other 7, expiresAt := 1 }, by decide, by decide⟩)

/-! ## C12: the period of the cleanup timer -/

/-- C12 (sweep interval): the period the cleanup timer of `NewCache(d)` is started
with is `max(d, 1 second)`; it is exactly 1 second if and only if `d` is at most
1 second. -/
theorem C12_sweep_interval {α : Type} (d : Duration) :
    (NewCache d : Cache α).startCleanupTimer = max d Second
      ∧ ((NewCache d : Cache α).startCleanupTimer = Second ↔ d ≤ Second) := by
  by_cases h : d < Second
  · have hp : (NewCache d : Cache α).startCleanupTimer = Second := if_pos h
    rw [hp]
    exact ⟨(max_eq_right (le_of_lt h)).symm, fun _ => le_of_lt h, fun _ => rfl⟩
  · have hle : Second ≤ d := not_lt.1 h
    have hp : (NewCache d : Cache α).startCleanupTimer = d := if_neg h
    rw [hp]
    exact ⟨(max_eq_left hle).symm, fun heq => le_of_eq heq, fun hd => le_antisymm hd hle⟩

/-! ## C13 and C14: SetWithTTL and NewCache -/

theorem mapStore_length_of_not_mem {α : Type} (key : String) (item : Item α)
    (m : List (String × Item α)) (hmem : key ∉ mapKeys m) :
    (mapStore key item m).length = m.length + 1 := by
  have h := congrArg List.length (mapKeys_store_of_not_mem key item m hmem)
  simpa [mapKeys] using h

/-- C13 (SetWithTTL grows the cache by at most one): `Count()` after
`SetWithTTL(k, v, d)` is `Count()` before plus 1 when `k` was absent from the map
and `Count()` before when `k` was present, expired or not; the entry of `k` then
holds `v` and expires at `now + d`. -/
theorem C13_setWithTTL_count {α : Type} (c : Cache α) (k : String) (v : Data α)
    (d : Duration) (now : Time) :
    (mapLookup k c.items = none → (c.SetWithTTL now k v d).Count = c.Count + 1)
      ∧ (∀ item, mapLookup k c.items = some item → (c.SetWithTTL now k v d).Count = c.Count)
      ∧ mapLookup k (c.SetWithTTL now k v d).items = some { data := v, expiresAt := now + d } := by
  refine ⟨?_, ?_, lookup_setWithTTL c now k v d⟩
  · intro h
    exact mapStore_length_of_not_mem k _ c.items ((mapLookup_eq_none_iff k c.items).1 h)
  · intro item h
    have hmem : k ∈ mapKeys c.items := by
      by_contra hcon
      rw [(mapLookup_eq_none_iff k c.items).2 hcon] at h
      exact Option.noConfusion h
    exact mapStore_length_of_mem k _ c.items hmem

/-- Witness of C13: overwriting an expired entry keeps the count at 1. -/
theorem C13_setWithTTL_count_witness :
    (((NewCache 10 : Cache Nat).SetWithTTL 0 "k" (Data.other 7) 1).SetWithTTL
        5 "k" (Data.other 8) 3).Count
      = ((NewCache 10 : Cache Nat).SetWithTTL 0 "k" (Data.other 7) 1).Count :=
  (C13_setWithTTL_count ((NewCache 10 : Cache Nat).SetWithTTL 0 "k" (Data.other 7) 1)
    "k" (Data.other 8) 3 5).2.1 { data := Data.other 7, expiresAt := 1 } (by decide)

/-- C14 (NewCache): `NewCache(d)` has default TTL `d` and an empty map: `Count()`
is 0 and `Get(k, b)` returns found = false for every key, flag and time. -/
theorem C14_newCache {α : Type} (d : Duration) :
    (NewCache d : Cache α).ttl = d
      ∧ (NewCache d : Cache α).items = []
      ∧ (NewCache d : Cache α).Count = 0
      ∧ ∀ (k : String) (b : Bool) (t : Time), ((NewCache d : Cache α).Get t k b).1.2 = false := by
  refine ⟨rfl, rfl, rfl, ?_⟩
  intro k b t
  rw [get_of_lookup_none (NewCache d) t k b rfl]

/-! ## C16: writes touch only their own key -/

/-- C16 (frame of the writes): for keys `k' ≠ k`, `SetWithTTL(k, v, d)`,
`Set(k, v)`, `Delete(k)` and `Get(k, b)`, successful or not, leave the entry of
`k'` (presence, value and expiration) and the default TTL as they were. -/
theorem C16_writes_own_key {α : Type} (c : Cache α) (k k' : String) (hne : k' ≠ k)
    (v : Data α) (d : Duration) (t : Time) (b : Bool) :
    (mapLookup k' (c.SetWithTTL t k v d).items = mapLookup k' c.items
        ∧ (c.SetWithTTL t k v d).ttl = c.ttl)
      ∧ (mapLookup k' (c.Set t k v).items = mapLookup k' c.items
        ∧ (c.Set t k v).ttl = c.ttl)
      ∧ (mapLookup k' (c.Delete k).items = mapLookup k' c.items
        ∧ (c.Delete k).ttl = c.ttl)
      ∧ (mapLookup k' (c.Get t k b).2.items = mapLookup k' c.items
        ∧ (c.Get t k b).2.ttl = c.ttl) := by
  refine ⟨⟨mapLookup_store_ne _ _ hne, rfl⟩, ⟨mapLookup_store_ne _ _ hne, rfl⟩,
    ⟨mapLookup_delete_ne _ hne, rfl⟩, ⟨lookup_get_ne c t b hne, ?_⟩⟩
  unfold Cache.Get
  cases hl : mapLookup k c.items with
  | none => rfl
  | some item =>
    by_cases hexp : item.expired t = true
    · simp [hexp]
    · cases b with
      | false => simp [hexp]
      | true => simp [hexp]

/-- Witness of C16: with entries for "j" and "k", a successful touching lookup of
"k" at 3 leaves the entry of "j" and the default TTL as they were. -/
theorem C16_writes_own_key_witness :
    mapLookup "j"
        ((((NewCache 10 : Cache Nat).Set 0 "j" (Data.other 1)).Set 1 "k" (Data.other 2)).Get
          3 "k" true).2.items
      = mapLookup "j"
          (((NewCache 10 : Cache Nat).Set 0 "j" (Data.other 1)).Set 1 "k" (Data.other 2)).items
      ∧ ((((NewCache 10 : Cache Nat).Set 0 "j" (Data.other 1)).Set 1 "k" (Data.other 2)).Get
          3 "k" true).2.ttl
        = (((NewCache 10 : Cache Nat).Set 0 "j" (Data.other 1)).Set 1 "k" (Data.other 2)).ttl :=
  (C16_writes_own_key
    (((NewCache 10 : Cache Nat).Set 0 "j" (Data.other 1)).Set 1 "k" (Data.other 2))
    "k" "j" (by decide) Data.nil 0 3 true).2.2.2

/-! ## C17 and C18: what a lookup returns -/

theorem get_result {α : Type} (c : Cache α) (now : Time) (key : String) (b : Bool) :
    (c.Get now key b).1
      = match mapLookup key c.items with
        | none => (Data.str "", false)
        | some item =>
          if item.expired now then (Data.str "", false)
          else if b then (item.data, true) else (Data.nil, false) := by
  unfold Cache.Get
  cases hl : mapLookup key c.items with
  | none => rfl
  | some item =>
    by_cases hexp : item.expired now = true
    · simp [hexp]
    · cases b with
      | false => simp [hexp]
      | true => simp [hexp, Item.touch]

theorem expired_mono {α : Type} (item : Item α) {t t' : Time} (hle : t ≤ t')
    (hexp : item.expired t = true) : item.expired t' = true := by
  simp only [Item.expired, decide_eq_true_eq, ge_iff_le] at hexp ⊢
  exact le_trans hexp hle

/-- C17 (the sweep is invisible to readers): `Get(k, b)` at a time `t' ≥ t`, the
time `t` itself included, returns the same `(data, found)` on the cache swept
at `t` as on the cache not swept. -/
theorem C17_sweep_invisible {α : Type} (c : Cache α) (k : String) (b : Bool) (t t' : Time)
    (hle : t ≤ t') :
    ((c.cleanup t).Get t' k b).1 = (c.Get t' k b).1 := by
  have hlook : mapLookup k (c.cleanup t).items
      = (mapLookup k c.items).filter (fun item => !item.expired t) := by
    rw [cleanup_items]
    exact mapLookup_filter k (fun item => !item.expired t) c.items c.nodup
  rw [get_result, get_result, hlook]
  cases hl : mapLookup k c.items with
  | none => rfl
  | some item =>
    by_cases hexp : item.expired t = true
    · have hexp' := expired_mono item hle hexp
      simp [Option.filter, hexp, hexp']
    · simp [Option.filter, hexp]

/-- Witness of C17: an entry that expired at 1 and was swept at 4 is not found at
6, swept or not. -/
theorem C17_sweep_invisible_witness :
    ((((NewCache 10 : Cache Nat).SetWithTTL 0 "k" (Data.other 7) 1).cleanup 4).Get 6 "k" true).1
      = (((NewCache 10 : Cache Nat).SetWithTTL 0 "k" (Data.other 7) 1).Get 6 "k" true).1 :=
  C17_sweep_invisible ((NewCache 10 : Cache Nat).SetWithTTL 0 "k" (Data.other 7) 1)
    "k" true 4 6 (by decide)

/-- C18 (data returned with found = false): `Get` returns the empty string as data
when `k` is absent or expired, and the nil value when `k` is present, unexpired
and `shouldTouch` is false. So whenever found = false the data is one of these
two constants and is not read from the entry: had any other value `v'` been
stored under `k` with the same deadline, the call would return the same. -/
theorem C18_data_when_not_found {α : Type} (c : Cache α) (k : String) (t : Time) (b : Bool) :
    (mapLookup k c.items = none → (c.Get t k b).1 = (Data.str "", false))
      ∧ (∀ item, mapLookup k c.items = some item → item.expired t = true →
          (c.Get t k b).1 = (Data.str "", false))
      ∧ (∀ item, mapLookup k c.items = some item → item.expired t = false →
          (c.Get t k false).1 = (Data.nil, false))
      ∧ ((c.Get t k b).1.2 = false →
          (c.Get t k b).1.1 = Data.str "" ∨ (c.Get t k b).1.1 = Data.nil)
      ∧ (∀ (item : Item α) (v' : Data α), mapLookup k c.items = some item →
          (c.Get t k b).1.2 = false →
          ((c.SetWithTTL 0 k v' item.expiresAt).Get t k b).1 = (c.Get t k b).1) := by
  refine ⟨?_, ?_, ?_, ?_, ?_⟩
  · intro h
    rw [get_result, h]
  · intro item h hexp
    rw [get_result, h]
    simp [hexp]
  · intro item h hexp
    rw [get_result, h]
    simp [hexp]
  · rw [get_result]
    cases hl : mapLookup k c.items with
    | none => intro _; left; rfl
    | some item =>
      by_cases hexp : item.expired t = true
      · intro _; left; simp [hexp]
      · cases b with
        | false => intro _; right; simp [hexp]
        | true => intro hf; simp [hexp] at hf
  · intro item v' h
    have hl' : mapLookup k (c.SetWithTTL 0 k v' item.expiresAt).items
        = some { data := v', expiresAt := item.expiresAt } := by
      rw [lookup_setWithTTL, zero_add]
    rw [get_result, get_result, hl', h]
    by_cases hexp : item.expired t = true
    · have hexp' : Item.expired ({ data := v', expiresAt := item.expiresAt } : Item α) t
          = true := hexp
      intro _
      simp [hexp, hexp']
    · have hexp' : ¬ Item.expired ({ data := v', expiresAt := item.expiresAt } : Item α) t
          = true := hexp
      cases b with
      | false => intro _; simp [hexp, hexp']
      | true => intro hf; simp [hexp] at hf

/-- Witness of C18: an entry holding 7 that expired at 1 yields the empty string
at 5. -/
theorem C18_data_when_not_found_witness :
    (((NewCache 10 : Cache Nat).SetWithTTL 0 "k" (Data.other 7) 1).Get 5 "k" true).1
      = (Data.str "", false) :=
  (C18_data_when_not_found ((NewCache 10 : Cache Nat).SetWithTTL 0 "k" (Data.other 7) 1)
    "k" 5 true).2.1 { data := Data.other 7, expiresAt := 1 } (by decide) (by decide)

end TTLCache
